import Mathlib

/-!
Verification of the NER data-preparation pipeline (`dataset.py`).

The Python source is shallowly embedded: Python strings become `List Char`,
Python lists become `List`, the tokenizer and the sklearn splitter are
external collaborators passed in as function parameters, and every partial
Python operation is modelled by a total Lean function that mirrors the
Python semantics (including fallback behaviour of bare `except`, Python's
negative list indexing, and `str.split(' ')` / `str.replace` semantics).
-/

set_option autoImplicit false

namespace NER

/-- Python strings are modelled as lists of characters. -/
abbrev Str := List Char

/-- Converts a Lean string literal to the character-list model. -/
def strOf (s : String) : Str := s.data

/-- Accumulator-based model of Python `s.split(' ')`: splits at every single
space, keeping empty fields, and always returns at least one field. -/
def splitSpAux (acc : Str) : Str → List Str
  | [] => [acc.reverse]
  | c :: rest => if c = ' ' then acc.reverse :: splitSpAux [] rest else splitSpAux (c :: acc) rest

/-- Model of Python `s.split(' ')`. -/
def pySplit1 (l : Str) : List Str := splitSpAux [] l

/-- Model of `word.split(' ')[0]` in `_tokenize_and_align_labels` (line 75):
the first space-delimited field of a corpus line. `split(' ')` never returns
an empty list in Python, so the default is never used. -/
def wordOf (l : Str) : Str := (pySplit1 l).headD []

/-- Model of `word.split(' ')[-1]` in `_tokenize_and_align_labels` (line 76):
the last space-delimited field of a corpus line. -/
def tagOf (l : Str) : Str := (pySplit1 l).getLastD []

/-- Model of `word_list = [word.split(' ')[0] for word in data_point]`. -/
def wordList (dataPoint : List Str) : List Str := dataPoint.map wordOf

/-- Model of `label_list = [word.split(' ')[-1] for word in data_point]`. -/
def labelList (dataPoint : List Str) : List Str := dataPoint.map tagOf

/-- Fuel-driven model of Python `hay.replace(needle, repl)` scanning left to
right and replacing non-overlapping occurrences. The fuel is instantiated
with the length of the haystack, which suffices because every step consumes
at least one character. (The degenerate Python behaviour for an empty
needle is irrelevant here: all needles used by the code are non-empty.) -/
def replaceFuel (needle repl : Str) : Nat → Str → Str
  | 0, hay => hay
  | _ + 1, [] => []
  | fuel + 1, c :: rest =>
    if needle.isPrefixOf (c :: rest) then
      repl ++ replaceFuel needle repl fuel (rest.drop (needle.length - 1))
    else
      c :: replaceFuel needle repl fuel rest

/-- Model of Python `hay.replace(needle, repl)`. -/
def pyReplace (hay needle repl : Str) : Str := replaceFuel needle repl hay.length hay

/-- Model of the per-line cleanup in `read_data` (line 51): the input lines
are already stripped of their trailing newline (the `readlines` /
`strip('\n')` file boundary), then tabs become spaces and the two
miscellaneous tags are rewritten to the outside tag. -/
def cleanupLine (l : Str) : Str :=
  pyReplace
    (pyReplace
      (pyReplace l (strOf ("\t")) (strOf (" ")))
      (strOf ("B-MISCELLANEOUS")) (strOf ("O")))
    (strOf ("I-MISCELLANEOUS")) (strOf ("O"))

/-- Ascending positions of blank lines, starting the count at `k`: model of
`np.where(np.array(lines) == '')[0]` in `read_data` (line 53). -/
def breakIdxsAux (k : Nat) : List Str → List Nat
  | [] => []
  | l :: rest => if l = [] then k :: breakIdxsAux (k + 1) rest else breakIdxsAux (k + 1) rest

/-- Positions of blank lines in ascending order. -/
def breakIdxs (lines : List Str) : List Nat := breakIdxsAux 0 lines

/-- Model of `CustomDataset.read_data` (lines 45-64). The loop
`for i in range(len(break_idxs) - 1)` pairs consecutive blank-line
positions, which is exactly `bks.zip bks.tail`; each pair `(s, e)` yields
the slice `lines[s' : e]` where `s' = s` if `s = 0` and `s + 1` otherwise. -/
def read_data (rawLines : List Str) : List (List Str) :=
  let lines := rawLines.map cleanupLine
  let bks := breakIdxs lines
  (bks.zip bks.tail).map fun se =>
    let s' := if se.1 = 0 then se.1 else se.1 + 1
    (lines.drop s').take (se.2 - s')

/-- Number of blank lines of a file, as a count over its stripped lines. -/
def countBlank (lines : List Str) : Nat := lines.countP (fun l => decide (l = []))

/-- Decidable well-formedness check used to state claims about valid corpus
files: no two consecutive lines are both blank. -/
def noAdjBlank : List Str → Bool
  | [] => true
  | [_] => true
  | a :: b :: rest => (!(decide (a = []) && decide (b = []))) && noAdjBlank (b :: rest)

/-- Example corpus file from the specification scenario. -/
def exCorpus : List Str :=
  [strOf ("John B-PERSON"), strOf ("Smith I-PERSON"), [], strOf ("Jane B-PERSON"), []]

/-- Insertion into a Python-dict model (association list): an existing key
is overwritten in place, a new key is appended at the end. -/
def dictInsert (d : List (Str × Nat)) (k : Str) (v : Nat) : List (Str × Nat) :=
  match d with
  | [] => [(k, v)]
  | (k', v') :: rest => if k' = k then (k, v) :: rest else (k', v') :: dictInsert rest k v

/-- Lookup in the Python-dict model; `none` models a `KeyError`. -/
def dictGet (d : List (Str × Nat)) (k : Str) : Option Nat :=
  match d with
  | [] => none
  | (k', v') :: rest => if k' = k then some v' else dictGet rest k

/-- Loop of `CustomDataset.__init__` (lines 34-36) building `tag2id`:
`for i in range(len(tags_list)): tag2id[tags_list[i]] = i`, with the index
counter threaded explicitly. -/
def buildTag2idAux (k : Nat) (tags : List Str) (d : List (Str × Nat)) : List (Str × Nat) :=
  match tags with
  | [] => d
  | t :: rest => buildTag2idAux (k + 1) rest (dictInsert d t k)

/-- The `tag2id` dictionary built from `tags_list`. -/
def buildTag2id (tags : List Str) : List (Str × Nat) := buildTag2idAux 0 tags []

/-- Model of `self.tag2id[label_list[word_idx]]` wrapped in the bare
`try`/`except` of `_tokenize_and_align_labels` (lines 97-101 and 105-109):
an out-of-range word index (IndexError) or a tag absent from the
vocabulary (KeyError) both fall back to the ignore sentinel `-100`. -/
def tagLookup (tag2id : Str → Option Nat) (ll : List Str) (w : Nat) : Int :=
  (((ll[w]?).bind tag2id).map (fun i => (i : Int))).getD (-100)

/-- One iteration of the alignment walk (lines 90-110): given the current
token's word index `x` and the previous token's word index `prv`, produce
the label id appended by the loop body. -/
def labelOf (tag2id : Str → Option Nat) (ll : List Str) (allTokens : Bool)
    (x prv : Option Nat) : Int :=
  match x with
  | none => -100
  | some w =>
    if some w ≠ prv then tagLookup tag2id ll w
    else if allTokens then tagLookup tag2id ll w
    else -100

/-- The alignment walk over the remaining word indices, threading
`previous_word_idx` exactly as the Python loop does (it is updated to the
current word index on every iteration, including `None`). -/
def alignGo (tag2id : Str → Option Nat) (ll : List Str) (allTokens : Bool)
    (prev : Option Nat) : List (Option Nat) → List Int
  | [] => []
  | x :: rest => labelOf tag2id ll allTokens x prev :: alignGo tag2id ll allTokens x rest

/-- The complete `label_ids` list produced by the walk of
`_tokenize_and_align_labels` (lines 86-110), starting from
`previous_word_idx = None`. -/
def alignLabels (tag2id : Str → Option Nat) (ll : List Str) (allTokens : Bool)
    (wordIds : List (Option Nat)) : List Int :=
  alignGo tag2id ll allTokens none wordIds

/-- Output of the external tokenizer capability: token ids, attention mask
and the per-position originating-word attribution (`word_ids()`). -/
structure TokenizerOutput where
  input_ids : List Nat
  attention_mask : List Nat
  word_ids : List (Option Nat)
  deriving DecidableEq

/-- The value stored per sentence by `CustomDataset` (a `tokenized_inputs`
dict with `input_ids`, `attention_mask` and `labels`). -/
structure TokenizedExample where
  input_ids : List Nat
  attention_mask : List Nat
  labels : List Int
  deriving DecidableEq

/-- Model of `' '.join(word_list)` (line 78). -/
def joinWords (ws : List Str) : Str := (List.intersperse (strOf (" ")) ws).flatten

/-- Model of `_tokenize_and_align_labels` (lines 74-116): extract words and
tags from the data point, reconstruct the text, call the external tokenizer
and align the labels along its `word_ids()` attribution. -/
def tokenizeAndAlignLabels (tokenizer : Str → TokenizerOutput)
    (tag2id : Str → Option Nat) (allTokens : Bool) (dataPoint : List Str) :
    TokenizedExample :=
  let out := tokenizer (joinWords (wordList dataPoint))
  { input_ids := out.input_ids
    attention_mask := out.attention_mask
    labels := alignLabels tag2id (labelList dataPoint) allTokens out.word_ids }

/-- The entry of `word_ids` that plays the role of `previous_word_idx` when
position `p` is processed: the initial value for `p = 0`, otherwise the
entry at `p - 1`. -/
def prevEntry (wordIds : List (Option Nat)) (prev : Option Nat) (p : Nat) : Option Nat :=
  match p with
  | 0 => prev
  | q + 1 => wordIds.getD q none

/-- Decidable form of the tokenizer word-attribution contract: the
positions carrying one given word index are consecutive. Whenever two
positions `p < q` carry the same word index, position `q - 1` carries it as
well. -/
def contigOK (wordIds : List (Option Nat)) : Bool :=
  (List.range wordIds.length).all fun q =>
    (List.range q).all fun p =>
      (decide (wordIds.getD q none = none)) ||
      (decide (wordIds.getD q none ≠ wordIds.getD p none)) ||
      (decide (wordIds.getD (q - 1) none = wordIds.getD q none))

/-- Decidable check that every word index attributed by the tokenizer has a
tag in the sentence and that this tag is in the vocabulary. -/
def tagsOK (tag2id : Str → Option Nat) (ll : List Str) (wordIds : List (Option Nat)) : Bool :=
  wordIds.all fun x =>
    match x with
    | none => true
    | some w => ((ll[w]?).bind tag2id).isSome

/-- Python list indexing semantics, as used by `self.dataset[idx]`:
indices in `[0, n)` are direct, indices in `[-n, 0)` wrap around from the
end, everything else raises an IndexError (modelled by `none`). -/
def pyListGet {α : Type} (xs : List α) (idx : Int) : Option α :=
  let j : Int := if 0 ≤ idx then idx else idx + (xs.length : Int)
  if 0 ≤ j ∧ j < (xs.length : Int) then xs[j.toNat]? else none

/-- The state of a `CustomDataset` relevant to `__len__`/`__getitem__`:
the eagerly built list of tokenized examples. -/
structure CustomDatasetModel where
  dataset : List TokenizedExample
  deriving DecidableEq

/-- Model of `CustomDataset.__len__`. -/
def dsLen (c : CustomDatasetModel) : Nat := c.dataset.length

/-- Model of `CustomDataset.__getitem__` (lines 69-72): plain Python list
indexing of `self.dataset`. -/
def dsGetItem (c : CustomDatasetModel) (idx : Int) : Option TokenizedExample :=
  pyListGet c.dataset idx

/-- One row of the raw annotated table (`dataset_df`): a possibly missing
`source` category (`none` models NaN) and the `conll_label` line list. -/
structure RawRow where
  source : Option Str
  conll_label : List Str
  deriving DecidableEq

/-- First-encountered-order list of the distinct values of a list. -/
def uniqueFirstAux {α : Type} [DecidableEq α] (seen : List α) : List α → List α
  | [] => []
  | x :: xs => if x ∈ seen then uniqueFirstAux seen xs else x :: uniqueFirstAux (x :: seen) xs

/-- Model of `.value_counts(dropna=False).index[0]` (lines 178-179): the
most frequent value, counting missing values as a category of their own;
ties are broken in first-encountered order (the behaviour of the external
pandas collaborator as documented by the specification). On an empty list
the model returns `none`; the code only evaluates it on non-empty chunks. -/
def mostFrequent (xs : List (Option Str)) : Option Str :=
  ((uniqueFirstAux [] xs).foldl
    (fun acc v =>
      match acc with
      | none => some v
      | some b => if xs.count v > xs.count b then some v else acc)
    none).getD none

/-- Length of Python `range(0, n, M)` for a positive step `M`. -/
def rangeStepLen (n M : Nat) : Nat := (n + M - 1) / M

/-- Model of Python `range(0, n, M)` for a positive step `M`. -/
def rangeStep (n M : Nat) : List Nat := (List.range (rangeStepLen n M)).map (· * M)

/-- The chunk `dataset_df.iloc[s : s + M]`. -/
def chunkAt (df : List RawRow) (s M : Nat) : List RawRow := (df.drop s).take M

/-- Model of the merge step of `prepare_dataset` (lines 175-187): the loop
`for start_idx in range(0, len(dataset_df), merge_sentence)[:-1]` walks all
chunk start offsets except the last one, and emits for each a synthetic row
with the chunk's most frequent source and its concatenated tag lines. -/
def mergeRows (df : List RawRow) (M : Nat) : List RawRow :=
  ((rangeStep df.length M).dropLast).map fun s =>
    { source := mostFrequent ((chunkAt df s M).map RawRow.source)
      conll_label := ((chunkAt df s M).map RawRow.conll_label).flatten }

/-- The four-row raw table of the specification's merge example, with
sources `a`, `a`, `b`, `b`. -/
def c1Table : List RawRow :=
  [ { source := some (strOf ("a")), conll_label := [strOf ("l1")] }
  , { source := some (strOf ("a")), conll_label := [strOf ("l2")] }
  , { source := some (strOf ("b")), conll_label := [strOf ("l3")] }
  , { source := some (strOf ("b")), conll_label := [strOf ("l4")] } ]

/-- Error taxonomy of `prepare_dataset`, following the specification's
ConfigurationError category. Concretely the Python code raises a
`TypeError` when the unrecognized-format branch leaves `dataset_df = None`,
and sklearn's `train_test_split` raises a `ValueError` when its `train_size`
fraction lies outside the open interval (0, 1). -/
inductive ConfigError where
  | unsupportedFormat
  | invalidSplitRatio
  deriving DecidableEq

/-- Model of `dataset_df['source'].fillna('other')` (line 189) on one row. -/
def fillnaOther (r : RawRow) : RawRow :=
  { r with source := some (r.source.getD (strOf ("other"))) }

/-- Wrapper for the external `sklearn.model_selection.train_test_split`
collaborator: the shuffling/stratification itself is an opaque parameter
`impl`, while the documented validation of a fractional `train_size`
(raising unless `0 < train_size < 1`) is explicit. -/
def ttSplit (impl : List RawRow → Rat → Nat → List RawRow × List RawRow)
    (df : List RawRow) (trainSize : Rat) (seed : Nat) :
    Except ConfigError (List RawRow × List RawRow) :=
  if 0 < trainSize ∧ trainSize < 1 then Except.ok (impl df trainSize seed)
  else Except.error ConfigError.invalidSplitRatio

/-- The optional merge of `prepare_dataset` (line 175): applied only when a
merge factor is given. -/
def mergeOpt (df1 : List RawRow) (mergeSentence : Option Nat) : List RawRow :=
  match mergeSentence with
  | none => df1
  | some M => mergeRows df1 M

/-- Body of `prepare_dataset` once the raw table has been selected:
optionally merge, fill missing sources with `other`, then run the
two-stage stratified split — the caller's seed for stage one and the fixed
seed 43 for stage two. -/
def prepareFrom (impl : List RawRow → Rat → Nat → List RawRow × List RawRow)
    (df1 : List RawRow) (mergeSentence : Option Nat)
    (valSize testSize : Rat) (randomState : Nat) :
    Except ConfigError (List RawRow × List RawRow × List RawRow) :=
  match ttSplit impl ((mergeOpt df1 mergeSentence).map fillnaOther)
      (1 - valSize - testSize) randomState with
  | Except.error e => Except.error e
  | Except.ok (train, rest) =>
    match ttSplit impl rest (valSize / (valSize + testSize)) 43 with
    | Except.error e => Except.error e
    | Except.ok (valD, testD) => Except.ok (train, valD, testD)

/-- Model of `NERDataModule.prepare_dataset` (lines 156-206) up to the file
writes: select the raw table according to `data_format` (the doccano and
csv readers are external collaborators supplying the two candidate tables;
any other selector leaves `dataset_df = None`, and the subsequent attribute
access on `None` raises a TypeError, modelled by the unsupported-format
error), then process the selected table. -/
def prepare_dataset (impl : List RawRow → Rat → Nat → List RawRow × List RawRow)
    (doccanoDf csvDf : List RawRow) (mergeSentence : Option Nat)
    (valSize testSize : Rat) (fmt : Str) (randomState : Nat) :
    Except ConfigError (List RawRow × List RawRow × List RawRow) :=
  if fmt = strOf ("doccano") then
    prepareFrom impl doccanoDf mergeSentence valSize testSize randomState
  else if fmt = strOf ("csv") then
    prepareFrom impl csvDf mergeSentence valSize testSize randomState
  else Except.error ConfigError.unsupportedFormat

end NER

namespace NER

theorem splitSpAux_ne_nil (l : Str) : ∀ acc : Str, splitSpAux acc l ≠ [] := by
  induction l with
  | nil => intro acc; simp [splitSpAux]
  | cons c rest ih =>
    intro acc
    by_cases hc : c = ' ' <;> simp [splitSpAux, hc, ih]

theorem splitSpAux_no_space {w : Str} (hw : ' ' ∉ w) :
    ∀ acc : Str, splitSpAux acc w = [acc.reverse ++ w] := by
  induction w with
  | nil => intro acc; simp [splitSpAux]
  | cons c rest ih =>
    intro acc
    have hc : c ≠ ' ' := fun h => hw (h ▸ List.mem_cons_self c rest)
    have hrest : ' ' ∉ rest := fun h => hw (List.mem_cons_of_mem c h)
    simp [splitSpAux, hc, ih hrest]

theorem splitSpAux_break {w : Str} (t : Str) (hw : ' ' ∉ w) :
    ∀ acc : Str, splitSpAux acc (w ++ ' ' :: t) = (acc.reverse ++ w) :: splitSpAux [] t := by
  induction w with
  | nil => intro acc; simp [splitSpAux]
  | cons c rest ih =>
    intro acc
    have hc : c ≠ ' ' := fun h => hw (h ▸ List.mem_cons_self c rest)
    have hrest : ' ' ∉ rest := fun h => hw (List.mem_cons_of_mem c h)
    simp [splitSpAux, hc, ih hrest]

theorem pySplit1_single {w : Str} (hw : ' ' ∉ w) : pySplit1 w = [w] := by
  simpa using splitSpAux_no_space hw []

theorem pySplit1_break {w : Str} (t : Str) (hw : ' ' ∉ w) :
    pySplit1 (w ++ ' ' :: t) = w :: pySplit1 t := by
  simpa using splitSpAux_break t hw []

/-- C2 (counterexample): on the line `"New York B-LOC"` the code takes the
word to be `"New"` — the first space-delimited field — and not
`"New York"`, so internal spaces of the word portion are not preserved. -/
theorem c2_counterexample :
    wordOf (strOf ("New York B-LOC")) = strOf ("New") ∧
    tagOf (strOf ("New York B-LOC")) = strOf ("B-LOC") ∧
    wordOf (strOf ("New York B-LOC")) ≠ strOf ("New York") := by
  decide

/-- C2 (amended): for every corpus line, the word is the first
whitespace-delimited field and the tag is the final one; any internal
fields of the line are discarded rather than preserved in the word. -/
theorem c2_amended (w mid t : Str) (hw : ' ' ∉ w) (hm : ' ' ∉ mid) (ht : ' ' ∉ t) :
    (wordOf (w ++ ' ' :: t) = w ∧ tagOf (w ++ ' ' :: t) = t) ∧
    (wordOf (w ++ ' ' :: (mid ++ ' ' :: t)) = w ∧
      tagOf (w ++ ' ' :: (mid ++ ' ' :: t)) = t) := by
  have h2 : pySplit1 (w ++ ' ' :: t) = w :: pySplit1 t := pySplit1_break t hw
  have h3 : pySplit1 (w ++ ' ' :: (mid ++ ' ' :: t)) = w :: mid :: pySplit1 t := by
    rw [pySplit1_break ((mid ++ ' ' :: t)) hw, pySplit1_break t hm]
  have hts : pySplit1 t = [t] := pySplit1_single ht
  refine ⟨⟨?_, ?_⟩, ?_, ?_⟩ <;>
    simp [wordOf, tagOf, h2, h3, hts]

/-- C2 (witness for the amended theorem) at the line `"New York B-LOC"`. -/
theorem c2_amended_witness :
    (' ' ∉ strOf ("New")) ∧ (' ' ∉ strOf ("York")) ∧ (' ' ∉ strOf ("B-LOC")) ∧
    ((wordOf (strOf ("New") ++ ' ' :: strOf ("B-LOC")) = strOf ("New") ∧
        tagOf (strOf ("New") ++ ' ' :: strOf ("B-LOC")) = strOf ("B-LOC")) ∧
      (wordOf (strOf ("New") ++ ' ' :: (strOf ("York") ++ ' ' :: strOf ("B-LOC"))) = strOf ("New") ∧
        tagOf (strOf ("New") ++ ' ' :: (strOf ("York") ++ ' ' :: strOf ("B-LOC"))) = strOf ("B-LOC"))) :=
  ⟨by decide, by decide, by decide,
    c2_amended (strOf ("New")) (strOf ("York")) (strOf ("B-LOC"))
      (by decide) (by decide) (by decide)⟩

/-- C3 (counterexample): on the example file the parser returns a single
record `["Jane B-PERSON"]`, not the two records claimed — the span before
the first blank line is never emitted because the loop only walks pairs of
consecutive blank-line positions. -/
theorem c3_counterexample :
    read_data exCorpus = [[strOf ("Jane B-PERSON")]] ∧ (read_data exCorpus).length ≠ 2 := by
  decide

/-- C3 (amended): the example file yields exactly one SentenceRecord,
namely `[("Jane", "B-PERSON")]`; the leading sentence `John/Smith` is
dropped because the file does not begin with a blank line. -/
theorem c3_amended :
    read_data exCorpus = [[strOf ("Jane B-PERSON")]] ∧
    wordOf (strOf ("Jane B-PERSON")) = strOf ("Jane") ∧
    tagOf (strOf ("Jane B-PERSON")) = strOf ("B-PERSON") := by
  decide

/-- C7 (counterexample): a corpus whose only sentence line is the single
field `"John"` is parsed without any error: `read_data` performs no field
count validation and the word/tag extraction returns the whole line as
both word and tag, so no MalformedCorpus failure ever happens. -/
theorem c7_counterexample :
    read_data [[], strOf ("John"), []] = [[[], strOf ("John")]] ∧
    wordList [strOf ("John")] = [strOf ("John")] ∧
    labelList [strOf ("John")] = [strOf ("John")] := by
  decide

/-- C7 (amended): parsing never fails on a line with fewer than 2
whitespace-separated fields; such a line contributes its single field as
both the word and the tag (an unknown tag is later mapped to the ignore
sentinel by the alignment fallback). -/
theorem c7_amended (l : Str) (h : ' ' ∉ l) : wordOf l = l ∧ tagOf l = l := by
  have := pySplit1_single h
  simp [wordOf, tagOf, this]

/-- C7 (witness for the amended theorem) at the single-field line `"John"`. -/
theorem c7_amended_witness :
    (' ' ∉ strOf ("John")) ∧ (wordOf (strOf ("John")) = strOf ("John") ∧
      tagOf (strOf ("John")) = strOf ("John")) :=
  ⟨by decide, c7_amended (strOf ("John")) (by decide)⟩

end NER

namespace NER

/-- C9 (counterexample): on a dataset of length 2 the lookup at index `-1`
does not fail — Python list indexing wraps negative indices, returning the
last element. -/
theorem c9_counterexample :
    dsGetItem (CustomDatasetModel.mk
        [TokenizedExample.mk [1] [1] [0], TokenizedExample.mk [2] [1] [-100]]) (-1)
      = some (TokenizedExample.mk [2] [1] [-100]) ∧
    dsGetItem (CustomDatasetModel.mk
        [TokenizedExample.mk [1] [1] [0], TokenizedExample.mk [2] [1] [-100]]) (-1)
      ≠ none := by
  decide

/-- C9 (amended): for every Dataset Container of length n, indexed lookup
succeeds exactly when `-n ≤ idx < n` (negative indices wrap around from the
end, Python-style) and fails with an IndexError for every index outside
`[-n, n)`. -/
theorem c9_amended (c : CustomDatasetModel) (idx : Int) :
    dsGetItem c idx ≠ none ↔ (-(dsLen c : Int) ≤ idx ∧ idx < (dsLen c : Int)) := by
  simp only [dsGetItem, pyListGet, dsLen]
  by_cases h0 : 0 ≤ idx
  · rw [if_pos h0]
    by_cases h1 : 0 ≤ idx ∧ idx < (c.dataset.length : Int)
    · rw [if_pos h1, Ne, List.getElem?_eq_none_iff]
      omega
    · rw [if_neg h1]
      simp only [ne_eq, not_true_eq_false, false_iff]
      omega
  · rw [if_neg h0]
    by_cases h1 : 0 ≤ idx + (c.dataset.length : Int) ∧
        idx + (c.dataset.length : Int) < (c.dataset.length : Int)
    · rw [if_pos h1, Ne, List.getElem?_eq_none_iff]
      omega
    · rw [if_neg h1]
      simp only [ne_eq, not_true_eq_false, false_iff]
      omega

theorem dictGet_dictInsert (d : List (Str × Nat)) (k k' : Str) (v : Nat) :
    dictGet (dictInsert d k v) k' = if k = k' then some v else dictGet d k' := by
  induction d with
  | nil => simp [dictInsert, dictGet]
  | cons a rest ih =>
    obtain ⟨ak, av⟩ := a
    by_cases hk : ak = k
    · subst hk
      by_cases hk' : ak = k' <;> simp [dictInsert, dictGet, hk', ih]
    · by_cases hk' : ak = k'
      · subst hk'
        have : ¬ k = ak := fun h => hk h.symm
        simp [dictInsert, dictGet, hk, this]
      · simp [dictInsert, dictGet, hk, hk', ih]

theorem buildTag2idAux_sound (P : Str → Nat → Prop) :
    ∀ (tags : List Str) (k : Nat) (d : List (Str × Nat)),
      (∀ t i, dictGet d t = some i → P t i) →
      (∀ j t, tags[j]? = some t → P t (k + j)) →
      ∀ t i, dictGet (buildTag2idAux k tags d) t = some i → P t i := by
  intro tags
  induction tags with
  | nil => intro k d hd _ t i h; exact hd t i h
  | cons t0 rest ih =>
    intro k d hd htags t i h
    refine ih (k + 1) (dictInsert d t0 k) ?_ ?_ t i h
    · intro t' i' h'
      rw [dictGet_dictInsert] at h'
      by_cases he : t0 = t'
      · rw [if_pos he] at h'
        have h0 : (t0 :: rest)[0]? = some t0 := by simp
        have := htags 0 t0 h0
        obtain rfl : k = i' := by injection h'
        simpa [he] using this
      · rw [if_neg he] at h'
        exact hd t' i' h'
    · intro j t' h'
      have : (t0 :: rest)[j + 1]? = some t' := by simpa using h'
      have := htags (j + 1) t' this
      have harith : k + (j + 1) = k + 1 + j := by omega
      rwa [harith] at this

theorem buildTag2id_sound (tags : List Str) (t : Str) (i : Nat)
    (h : dictGet (buildTag2id tags) t = some i) :
    i < tags.length ∧ tags[i]? = some t := by
  refine buildTag2idAux_sound (fun t i => i < tags.length ∧ tags[i]? = some t)
    tags 0 [] ?_ ?_ t i h
  · intro t' i' h'
    simp [dictGet] at h'
  · intro j t' h'
    have hj : j < tags.length := (List.getElem?_eq_some.mp h').1
    constructor
    · omega
    · simpa using h'

theorem tagLookup_cases (tag2id : Str → Option Nat) (ll : List Str) (w : Nat) :
    tagLookup tag2id ll w = -100 ∨
    ∃ t i, ll[w]? = some t ∧ tag2id t = some i ∧ tagLookup tag2id ll w = (i : Int) := by
  cases hll : ll[w]? with
  | none => exact Or.inl (by simp [tagLookup, hll])
  | some t =>
    cases hid : tag2id t with
    | none => exact Or.inl (by simp [tagLookup, hll, hid])
    | some i => exact Or.inr ⟨t, i, rfl, hid, by simp [tagLookup, hll, hid]⟩

theorem alignGo_mem (tag2id : Str → Option Nat) (ll : List Str) (b : Bool) :
    ∀ (wids : List (Option Nat)) (prev : Option Nat) (l : Int),
      l ∈ alignGo tag2id ll b prev wids →
      l = -100 ∨ ∃ t i, tag2id t = some i ∧ l = (i : Int) := by
  intro wids
  induction wids with
  | nil => intro prev l h; simp [alignGo] at h
  | cons x rest ih =>
    intro prev l h
    rw [alignGo, List.mem_cons] at h
    rcases h with h | h
    · subst h
      cases x with
      | none => exact Or.inl rfl
      | some w =>
        rcases tagLookup_cases tag2id ll w with hcase | ⟨t, i, _, hid, hval⟩
        · left
          simp only [labelOf]
          split_ifs
          · exact hcase
          · exact hcase
          · rfl
        · simp only [labelOf]
          split_ifs
          · exact Or.inr ⟨t, i, hid, hval⟩
          · exact Or.inr ⟨t, i, hid, hval⟩
          · exact Or.inl rfl
    · exact ih x l h

/-- C10: every label id emitted by the alignment walk is either the ignore
sentinel `-100` or a natural number that is the `tags_list` index of an
actual vocabulary tag (in particular it lies in `[0, k)` for a vocabulary
of size `k`); no other value ever appears. -/
theorem c10_label_ids_sound (tags ll : List Str) (wids : List (Option Nat)) (b : Bool)
    (l : Int) (hl : l ∈ alignLabels (dictGet (buildTag2id tags)) ll b wids) :
    l = -100 ∨ ∃ i : Nat, l = (i : Int) ∧ i < tags.length ∧
      ∃ t, tags[i]? = some t ∧ dictGet (buildTag2id tags) t = some i := by
  rcases alignGo_mem (dictGet (buildTag2id tags)) ll b wids none l hl with h | ⟨t, i, hid, rfl⟩
  · exact Or.inl h
  · obtain ⟨hlen, hget⟩ := buildTag2id_sound tags t i hid
    exact Or.inr ⟨i, rfl, hlen, t, hget, hid⟩

/-- C10 (witness): a concrete run with vocabulary `["O"]`, sentence tag
list `["O"]` and word attribution `[some 0]`, whose only label id is `0`. -/
theorem c10_label_ids_sound_witness :
    ((0 : Int) ∈ alignLabels (dictGet (buildTag2id [strOf ("O")])) [strOf ("O")] false [some 0]) ∧
    ((0 : Int) = -100 ∨ ∃ i : Nat, (0 : Int) = (i : Int) ∧ i < [strOf ("O")].length ∧
      ∃ t, [strOf ("O")][i]? = some t ∧ dictGet (buildTag2id [strOf ("O")]) t = some i) :=
  ⟨by decide, c10_label_ids_sound [strOf ("O")] [strOf ("O")] [some 0] false 0 (by decide)⟩

theorem alignGo_length (tag2id : Str → Option Nat) (ll : List Str) (b : Bool) :
    ∀ (wids : List (Option Nat)) (prev : Option Nat),
      (alignGo tag2id ll b prev wids).length = wids.length := by
  intro wids
  induction wids with
  | nil => intro prev; rfl
  | cons x rest ih => intro prev; simp [alignGo, ih]

/-- C6: whenever the external tokenizer fulfils its contract of returning
token ids, attention mask and word attribution of length exactly
`max_seq_length` (its behaviour under `truncation=True`,
`padding='max_length'`), the TokenizedExample built for any SentenceRecord
has all three arrays of length exactly `max_seq_length`. -/
theorem c6_fixed_lengths (tokenizer : Str → TokenizerOutput) (maxLen : Nat)
    (hTok : ∀ s, (tokenizer s).input_ids.length = maxLen ∧
      (tokenizer s).attention_mask.length = maxLen ∧
      (tokenizer s).word_ids.length = maxLen)
    (tag2id : Str → Option Nat) (b : Bool) (dataPoint : List Str) :
    (tokenizeAndAlignLabels tokenizer tag2id b dataPoint).input_ids.length = maxLen ∧
    (tokenizeAndAlignLabels tokenizer tag2id b dataPoint).attention_mask.length = maxLen ∧
    (tokenizeAndAlignLabels tokenizer tag2id b dataPoint).labels.length = maxLen := by
  obtain ⟨h1, h2, h3⟩ := hTok (joinWords (wordList dataPoint))
  refine ⟨h1, h2, ?_⟩
  simp only [tokenizeAndAlignLabels, alignLabels]
  rw [alignGo_length]
  exact h3

/-- C6 (witness): a two-position toy tokenizer, on a short and on a long
sentence record. -/
theorem c6_fixed_lengths_witness :
    (∀ s : Str, ((fun _ => TokenizerOutput.mk [1, 2] [1, 0] [none, some 0]) s).input_ids.length = 2 ∧
      ((fun _ => TokenizerOutput.mk [1, 2] [1, 0] [none, some 0]) s).attention_mask.length = 2 ∧
      ((fun _ => TokenizerOutput.mk [1, 2] [1, 0] [none, some 0]) s).word_ids.length = 2) ∧
    ((tokenizeAndAlignLabels (fun _ => TokenizerOutput.mk [1, 2] [1, 0] [none, some 0])
        (dictGet (buildTag2id [strOf ("O")])) false [strOf ("John O")]).input_ids.length = 2 ∧
      (tokenizeAndAlignLabels (fun _ => TokenizerOutput.mk [1, 2] [1, 0] [none, some 0])
        (dictGet (buildTag2id [strOf ("O")])) false [strOf ("John O")]).attention_mask.length = 2 ∧
      (tokenizeAndAlignLabels (fun _ => TokenizerOutput.mk [1, 2] [1, 0] [none, some 0])
        (dictGet (buildTag2id [strOf ("O")])) false [strOf ("John O")]).labels.length = 2) :=
  ⟨fun _ => ⟨rfl, rfl, rfl⟩,
    c6_fixed_lengths (fun _ => TokenizerOutput.mk [1, 2] [1, 0] [none, some 0]) 2
      (fun _ => ⟨rfl, rfl, rfl⟩) (dictGet (buildTag2id [strOf ("O")])) false [strOf ("John O")]⟩

/-- C8: `prepare_dataset` fails whenever `val_size + test_size ≥ 1` (the
first `train_test_split` rejects its non-positive `train_size` fraction) or
the `data_format` selector is neither `doccano` nor `csv` (the table stays
`None` and the subsequent access fails). The hypothesis `merge ≠ some 0`
excludes the degenerate merge factor on which Python's `range` raises
before either check is reached. -/
theorem ttSplit_ratio_bad (impl : List RawRow → Rat → Nat → List RawRow × List RawRow)
    (valSize testSize : Rat) (hr : 1 ≤ valSize + testSize) (df : List RawRow) (seed : Nat) :
    ttSplit impl df (1 - valSize - testSize) seed
      = Except.error ConfigError.invalidSplitRatio := by
  unfold ttSplit
  rw [if_neg]
  rintro ⟨hpos, -⟩
  linarith

theorem prepareFrom_ratio_bad (impl : List RawRow → Rat → Nat → List RawRow × List RawRow)
    (df1 : List RawRow) (mergeSentence : Option Nat) (valSize testSize : Rat)
    (randomState : Nat) (hr : 1 ≤ valSize + testSize) :
    prepareFrom impl df1 mergeSentence valSize testSize randomState
      = Except.error ConfigError.invalidSplitRatio := by
  unfold prepareFrom
  rw [ttSplit_ratio_bad impl valSize testSize hr]

theorem c8_config_errors (impl : List RawRow → Rat → Nat → List RawRow × List RawRow)
    (doccanoDf csvDf : List RawRow) (mergeSentence : Option Nat)
    (valSize testSize : Rat) (fmt : Str) (randomState : Nat)
    (_hM : mergeSentence ≠ some 0)
    (h : 1 ≤ valSize + testSize ∨ (fmt ≠ strOf ("doccano") ∧ fmt ≠ strOf ("csv"))) :
    ∃ e, prepare_dataset impl doccanoDf csvDf mergeSentence valSize testSize fmt randomState
      = Except.error e := by
  rcases h with hr | ⟨hc1, hc2⟩
  · by_cases hf1 : fmt = strOf ("doccano")
    · refine ⟨ConfigError.invalidSplitRatio, ?_⟩
      unfold prepare_dataset
      rw [if_pos hf1]
      exact prepareFrom_ratio_bad impl doccanoDf mergeSentence valSize testSize randomState hr
    · by_cases hf2 : fmt = strOf ("csv")
      · refine ⟨ConfigError.invalidSplitRatio, ?_⟩
        unfold prepare_dataset
        rw [if_neg hf1, if_pos hf2]
        exact prepareFrom_ratio_bad impl csvDf mergeSentence valSize testSize randomState hr
      · refine ⟨ConfigError.unsupportedFormat, ?_⟩
        unfold prepare_dataset
        rw [if_neg hf1, if_neg hf2]
  · refine ⟨ConfigError.unsupportedFormat, ?_⟩
    unfold prepare_dataset
    rw [if_neg hc1, if_neg hc2]

/-- C8 (witness): `val_size = test_size = 1/2` with the csv format selector
produces a split-ratio failure. -/
theorem c8_config_errors_witness :
    ((none : Option Nat) ≠ some 0) ∧
    (1 ≤ (1 / 2 : Rat) + (1 / 2 : Rat) ∨
      (strOf ("csv") ≠ strOf ("doccano") ∧ strOf ("csv") ≠ strOf ("csv"))) ∧
    (∃ e, prepare_dataset (fun df _ _ => (df, df)) [] [] none
      (1 / 2) (1 / 2) (strOf ("csv")) 41 = Except.error e) :=
  ⟨by decide, Or.inl (by norm_num),
    c8_config_errors (fun df _ _ => (df, df)) [] [] none (1 / 2) (1 / 2)
      (strOf ("csv")) 41 (by decide) (Or.inl (by norm_num))⟩

end NER

namespace NER

theorem rangeStep_dropLast (n M : Nat) :
    (rangeStep n M).dropLast = (List.range (rangeStepLen n M - 1)).map (· * M) := by
  unfold rangeStep
  rw [List.dropLast_eq_take, List.length_map, List.length_range, ← List.map_take,
    List.take_range, Nat.min_eq_left (Nat.sub_le _ _)]

theorem mergeChunk_full (n M i : Nat) (hM : 0 < M) (hi : i < rangeStepLen n M - 1) :
    i * M + M ≤ n := by
  have h2 : rangeStepLen n M ≤ n / M + 1 := by
    unfold rangeStepLen
    calc (n + M - 1) / M ≤ (n + M) / M := Nat.div_le_div_right (by omega)
      _ = n / M + 1 := Nat.add_div_right n hM
  have h3 : i + 1 ≤ n / M := by omega
  calc i * M + M = (i + 1) * M := by ring
    _ ≤ (n / M) * M := Nat.mul_le_mul_right M h3
    _ ≤ n := Nat.div_mul_le_self n M

/-- C1 (counterexample): merging the 4-row table with sources
`a, a, b, b` at factor 2 produces one single merged row (the pair of `a`
rows), not the claimed two rows: `range(0, 4, 2)[:-1]` keeps only the
start offset 0, so the second — complete — chunk is dropped. -/
theorem c1_counterexample :
    (mergeRows c1Table 2).length = 1 ∧ (mergeRows c1Table 2).length ≠ 2 ∧
    mergeRows c1Table 2 =
      [{ source := some (strOf ("a")), conll_label := [strOf ("l1"), strOf ("l2")] }] := by
  decide

/-- C1 (amended): for every table and merge factor `M > 0` the merge step
emits `ceil(n / M) - 1` rows: the consecutive chunks of `M` rows each,
except that the final enumerated chunk is always dropped — not only when it
is partial (when `M` divides `n`, a complete final chunk is dropped). Every
surviving chunk is full (`i * M + M ≤ n`), and its merged row carries the
chunk's most frequent source and the concatenation of the chunk's
tag-sequences in original order. -/
theorem c1_amended (df : List RawRow) (M : Nat) (hM : 0 < M) :
    (mergeRows df M).length = rangeStepLen df.length M - 1 ∧
    (∀ i, i < rangeStepLen df.length M - 1 →
      i * M + M ≤ df.length ∧
      (mergeRows df M)[i]? = some
        { source := mostFrequent ((chunkAt df (i * M) M).map RawRow.source)
          conll_label := ((chunkAt df (i * M) M).map RawRow.conll_label).flatten }) := by
  constructor
  · unfold mergeRows
    rw [rangeStep_dropLast, List.length_map, List.length_map, List.length_range]
  · intro i hi
    refine ⟨mergeChunk_full df.length M i hM hi, ?_⟩
    unfold mergeRows
    rw [rangeStep_dropLast, List.map_map, List.getElem?_map]
    simp [List.getElem?_range, hi]

/-- C1 (witness for the amended theorem) on the specification's four-row
example table with merge factor 2. -/
theorem c1_amended_witness :
    (0 < 2) ∧
    ((mergeRows c1Table 2).length = rangeStepLen c1Table.length 2 - 1 ∧
      (∀ i, i < rangeStepLen c1Table.length 2 - 1 →
        i * 2 + 2 ≤ c1Table.length ∧
        (mergeRows c1Table 2)[i]? = some
          { source := mostFrequent ((chunkAt c1Table (i * 2) 2).map RawRow.source)
            conll_label := ((chunkAt c1Table (i * 2) 2).map RawRow.conll_label).flatten })) :=
  ⟨by decide, c1_amended c1Table 2 (by decide)⟩

end NER

namespace NER

theorem prevEntry_cons (y : Option Nat) (rest : List (Option Nat)) (prev : Option Nat) (q : Nat) :
    prevEntry (y :: rest) prev (q + 1) = prevEntry rest y q := by
  cases q with
  | zero => simp [prevEntry]
  | succ r => simp [prevEntry]

theorem alignGo_getElem (tag2id : Str → Option Nat) (ll : List Str) (b : Bool) :
    ∀ (wids : List (Option Nat)) (prev : Option Nat) (p : Nat) (x : Option Nat),
      wids[p]? = some x →
      (alignGo tag2id ll b prev wids)[p]? =
        some (labelOf tag2id ll b x (prevEntry wids prev p)) := by
  intro wids
  induction wids with
  | nil => intro prev p x h; simp at h
  | cons y rest ih =>
    intro prev p x h
    cases p with
    | zero =>
      have hyx : y = x := by simpa using h
      subst hyx
      simp [alignGo, prevEntry]
    | succ q =>
      have h' : rest[q]? = some x := by simpa using h
      rw [alignGo, List.getElem?_cons_succ, ih y q x h', prevEntry_cons]

theorem contigOK_spec {wids : List (Option Nat)} (hc : contigOK wids = true)
    {w p q : Nat} (hp : wids[p]? = some (some w)) (hq : wids[q]? = some (some w))
    (hpq : p < q) : wids[q - 1]? = some (some w) := by
  have hqlen : q < wids.length := (List.getElem?_eq_some.mp hq).1
  have h1 := List.all_eq_true.mp hc q (List.mem_range.mpr hqlen)
  have h2 := List.all_eq_true.mp h1 p (List.mem_range.mpr hpq)
  have hgq : wids.getD q none = some w := by
    rw [List.getD_eq_getElem?_getD, hq]
    rfl
  have hgp : wids.getD p none = some w := by
    rw [List.getD_eq_getElem?_getD, hp]
    rfl
  simp only [hgq, hgp] at h2
  simp at h2
  cases hg : wids[q - 1]? with
  | none => rw [hg] at h2; simp at h2
  | some y =>
    rw [hg] at h2
    simp at h2
    rw [h2]

theorem tagsOK_spec {tag2id : Str → Option Nat} {ll : List Str} {wids : List (Option Nat)}
    (ht : tagsOK tag2id ll wids = true) {w : Nat} (hw : (some w) ∈ wids) :
    ∃ t i, ll[w]? = some t ∧ tag2id t = some i := by
  have h := List.all_eq_true.mp ht (some w) hw
  have h' : ((ll[w]?).bind tag2id).isSome = true := by simpa [tagsOK] using h
  cases hll : ll[w]? with
  | none => rw [hll] at h'; simp at h'
  | some t =>
    rw [hll] at h'
    cases hid : tag2id t with
    | none => simp [hid] at h'
    | some i => exact ⟨t, i, rfl, hid⟩

/-- C5: with `label_all_tokens = false`, under the tokenizer contract that
each word's sub-word positions are consecutive (`contigOK`) and with every
attributed word carrying a vocabulary tag (`tagsOK`), the walk assigns a
real (non `-100`) label exactly at the first sub-word position `p0` of each
word `w`; every other position of `w` and every special/padding position
(word index `None`) receives the ignore sentinel. -/
theorem c5_first_subword_real (tag2id : Str → Option Nat) (ll : List Str)
    (wids : List (Option Nat)) (w p0 : Nat)
    (hc : contigOK wids = true)
    (ht : tagsOK tag2id ll wids = true)
    (hp0 : wids[p0]? = some (some w))
    (hmin : ∀ i, i < p0 → wids[i]? ≠ some (some w)) :
    (∃ n : Nat, (alignLabels tag2id ll false wids)[p0]? = some ((n : Int)) ∧
      ((n : Int)) ≠ -100) ∧
    (∀ q : Nat, wids[q]? = some (some w) → q ≠ p0 →
      (alignLabels tag2id ll false wids)[q]? = some (-100)) ∧
    (∀ q : Nat, wids[q]? = some none →
      (alignLabels tag2id ll false wids)[q]? = some (-100)) := by
  have hchar := alignGo_getElem tag2id ll false wids
  refine ⟨?_, ?_, ?_⟩
  · have hlab := hchar none p0 (some w) hp0
    have hprev : prevEntry wids none p0 ≠ some w := by
      cases p0 with
      | zero => simp [prevEntry]
      | succ q =>
        simp only [prevEntry]
        rw [List.getD_eq_getElem?_getD]
        cases hyy : wids[q]? with
        | none => simp
        | some y =>
          simp only [Option.getD_some]
          intro hcontra
          rw [hcontra] at hyy
          exact hmin q (by omega) hyy
    have hmem : (some w) ∈ wids := by
      obtain ⟨hlt, heq⟩ := List.getElem?_eq_some.mp hp0
      rw [← heq]
      exact wids.getElem_mem hlt
    obtain ⟨t, i, hll, hid⟩ := tagsOK_spec ht hmem
    refine ⟨i, ?_, by omega⟩
    unfold alignLabels
    rw [hlab]
    have hcond : some w ≠ prevEntry wids none p0 := fun hh => hprev hh.symm
    simp [labelOf, hcond, tagLookup, hll, hid]
  · intro q hq hqne
    have hpq : p0 < q := by
      rcases Nat.lt_trichotomy q p0 with hlt | heq | hgt
      · exact absurd hq (hmin q hlt)
      · exact absurd heq hqne
      · exact hgt
    have hq1 : wids[q - 1]? = some (some w) := contigOK_spec hc hp0 hq hpq
    have hlab := hchar none q (some w) hq
    unfold alignLabels
    rw [hlab]
    have hprev : prevEntry wids none q = some w := by
      cases q with
      | zero => omega
      | succ r =>
        simp only [prevEntry]
        rw [List.getD_eq_getElem?_getD]
        have hr : wids[r]? = some (some w) := by simpa using hq1
        rw [hr]
        rfl
    rw [hprev]
    simp [labelOf]
  · intro q hq
    have hlab := hchar none q none hq
    unfold alignLabels
    rw [hlab]
    rfl

/-- C5 (witness): tokenizer attribution `[None, 0, 0, 1, None]` over a
two-word sentence tagged `B-PERSON I-PERSON`, first word `w = 0` starting
at position 1. -/
theorem c5_first_subword_real_witness :
    (contigOK [none, some 0, some 0, some 1, none] = true) ∧
    (tagsOK (dictGet (buildTag2id [strOf ("B-PERSON"), strOf ("I-PERSON"), strOf ("O")]))
      [strOf ("B-PERSON"), strOf ("I-PERSON")] [none, some 0, some 0, some 1, none] = true) ∧
    (([none, some 0, some 0, some 1, none] : List (Option Nat))[1]? = some (some 0)) ∧
    (∀ i, i < 1 → ([none, some 0, some 0, some 1, none] : List (Option Nat))[i]? ≠ some (some 0)) ∧
    ((∃ n : Nat,
        (alignLabels (dictGet (buildTag2id [strOf ("B-PERSON"), strOf ("I-PERSON"), strOf ("O")]))
          [strOf ("B-PERSON"), strOf ("I-PERSON")] false
          [none, some 0, some 0, some 1, none])[1]? = some ((n : Int)) ∧ ((n : Int)) ≠ -100) ∧
      (∀ q : Nat, ([none, some 0, some 0, some 1, none] : List (Option Nat))[q]? = some (some 0) →
        q ≠ 1 →
        (alignLabels (dictGet (buildTag2id [strOf ("B-PERSON"), strOf ("I-PERSON"), strOf ("O")]))
          [strOf ("B-PERSON"), strOf ("I-PERSON")] false
          [none, some 0, some 0, some 1, none])[q]? = some (-100)) ∧
      (∀ q : Nat, ([none, some 0, some 0, some 1, none] : List (Option Nat))[q]? = some none →
        (alignLabels (dictGet (buildTag2id [strOf ("B-PERSON"), strOf ("I-PERSON"), strOf ("O")]))
          [strOf ("B-PERSON"), strOf ("I-PERSON")] false
          [none, some 0, some 0, some 1, none])[q]? = some (-100))) :=
  ⟨by decide, by decide, by decide, by decide,
    c5_first_subword_real
      (dictGet (buildTag2id [strOf ("B-PERSON"), strOf ("I-PERSON"), strOf ("O")]))
      [strOf ("B-PERSON"), strOf ("I-PERSON")] [none, some 0, some 0, some 1, none] 0 1
      (by decide) (by decide) (by decide) (by decide)⟩

end NER

namespace NER

theorem pyReplace_ne_nil {hay : Str} (needle : Str) {repl : Str} (hrepl : repl ≠ [])
    (hh : hay ≠ []) : pyReplace hay needle repl ≠ [] := by
  cases hay with
  | nil => exact absurd rfl hh
  | cons c rest =>
    show replaceFuel needle repl (c :: rest).length (c :: rest) ≠ []
    rw [List.length_cons]
    simp only [replaceFuel]
    split_ifs with hpre
    · simp [List.append_eq_nil, hrepl]
    · exact List.cons_ne_nil c _

theorem cleanupLine_eq_nil_iff (l : Str) : cleanupLine l = [] ↔ l = [] := by
  constructor
  · intro h
    by_contra hne
    have hx1 : pyReplace l (strOf ("\t")) (strOf (" ")) ≠ [] :=
      pyReplace_ne_nil _ (by decide) hne
    have hx2 : pyReplace (pyReplace l (strOf ("\t")) (strOf (" ")))
        (strOf ("B-MISCELLANEOUS")) (strOf ("O")) ≠ [] :=
      pyReplace_ne_nil _ (by decide) hx1
    have hx3 : cleanupLine l ≠ [] := pyReplace_ne_nil _ (by decide) hx2
    exact hx3 h
  · intro h
    subst h
    rfl

theorem countBlank_map_cleanup (raw : List Str) :
    countBlank (raw.map cleanupLine) = countBlank raw := by
  unfold countBlank
  induction raw with
  | nil => rfl
  | cons a rest ih =>
    rw [List.map_cons, List.countP_cons, List.countP_cons, ih]
    congr 1
    by_cases ha : a = []
    · simp [ha]
      decide
    · have hca : cleanupLine a ≠ [] := fun h => ha ((cleanupLine_eq_nil_iff a).mp h)
      simp [ha, hca]

theorem breakIdxsAux_length (l : List Str) : ∀ k, (breakIdxsAux k l).length = countBlank l := by
  induction l with
  | nil => intro k; rfl
  | cons a rest ih =>
    intro k
    unfold breakIdxsAux countBlank
    rw [List.countP_cons]
    by_cases ha : a = []
    · rw [if_pos ha, List.length_cons, ih (k + 1)]
      simp [ha, countBlank]
    · rw [if_neg ha, ih (k + 1)]
      simp [ha, countBlank]

theorem breakIdxsAux_mem {l : List Str} : ∀ {k j : Nat}, j ∈ breakIdxsAux k l →
    k ≤ j ∧ j - k < l.length ∧ l[j - k]? = some ([] : Str) := by
  induction l with
  | nil => intro k j h; simp [breakIdxsAux] at h
  | cons a rest ih =>
    intro k j h
    unfold breakIdxsAux at h
    by_cases ha : a = []
    · rw [if_pos ha] at h
      rcases List.mem_cons.mp h with rfl | hmem
      · refine ⟨Nat.le_refl j, by simp, ?_⟩
        simp [Nat.sub_self, ha]
      · obtain ⟨hk, hlen, hget⟩ := ih hmem
        refine ⟨by omega, by simp only [List.length_cons]; omega, ?_⟩
        have hj : j - k = (j - (k + 1)) + 1 := by omega
        rw [hj, List.getElem?_cons_succ]
        exact hget
    · rw [if_neg ha] at h
      obtain ⟨hk, hlen, hget⟩ := ih h
      refine ⟨by omega, by simp only [List.length_cons]; omega, ?_⟩
      have hj : j - k = (j - (k + 1)) + 1 := by omega
      rw [hj, List.getElem?_cons_succ]
      exact hget

theorem breakIdxsAux_chain (l : List Str) : ∀ k, List.Chain' (· < ·) (breakIdxsAux k l) := by
  induction l with
  | nil => intro k; simp [breakIdxsAux]
  | cons a rest ih =>
    intro k
    unfold breakIdxsAux
    by_cases ha : a = []
    · rw [if_pos ha, List.chain'_cons']
      refine ⟨?_, ih (k + 1)⟩
      intro b hb
      have hmem : b ∈ breakIdxsAux (k + 1) rest := List.mem_of_mem_head? hb
      have := (breakIdxsAux_mem hmem).1
      omega
    · rw [if_neg ha]
      exact ih (k + 1)

theorem zip_tail_spec : ∀ {l : List Nat}, List.Chain' (· < ·) l →
    ∀ p ∈ l.zip l.tail, p.1 < p.2 ∧ p.1 ∈ l ∧ p.2 ∈ l := by
  intro l
  induction l with
  | nil => intro _ p hp; simp at hp
  | cons a rest ih =>
    intro hch p hp
    cases rest with
    | nil => simp at hp
    | cons b t =>
      rw [List.tail_cons, List.zip_cons_cons] at hp
      rw [List.chain'_cons] at hch
      rcases List.mem_cons.mp hp with rfl | hmem
      · exact ⟨hch.1, by simp, by simp⟩
      · obtain ⟨hr1, hr2, hr3⟩ := ih hch.2 p (by simpa using hmem)
        exact ⟨hr1, List.mem_cons_of_mem a hr2, List.mem_cons_of_mem a hr3⟩

theorem noAdjBlank_spec : ∀ {l : List Str}, noAdjBlank l = true →
    ∀ i : Nat, ¬(l[i]? = some ([] : Str) ∧ l[i + 1]? = some ([] : Str)) := by
  intro l
  induction l with
  | nil =>
    intro _ i hpair
    exact absurd hpair.1 (by simp)
  | cons a rest ih =>
    intro h i hpair
    cases rest with
    | nil =>
      cases i with
      | zero => exact absurd hpair.2 (by simp)
      | succ n => exact absurd hpair.1 (by simp)
    | cons b t =>
      unfold noAdjBlank at h
      rw [Bool.and_eq_true] at h
      obtain ⟨hab, hrest⟩ := h
      cases i with
      | zero =>
        have ha : a = [] := by simpa using hpair.1
        have hb : b = [] := by simpa using hpair.2
        rw [ha, hb] at hab
        simp at hab
      | succ n =>
        exact ih hrest n ⟨by simpa using hpair.1, by simpa using hpair.2⟩

theorem cleanup_blank_at (raw : List Str) (j : Nat) :
    (raw.map cleanupLine)[j]? = some ([] : Str) ↔ raw[j]? = some ([] : Str) := by
  rw [List.getElem?_map]
  cases hg : raw[j]? with
  | none => simp
  | some a => simp [cleanupLine_eq_nil_iff]

/-- C4: for every valid corpus file — at least one blank line and no two
adjacent blank lines — the number of SentenceRecords returned by
`read_data` equals the number of blank lines minus 1, and every returned
record is a non-empty list of lines. -/
theorem c4_read_data_count (raw : List Str)
    (h1 : 1 ≤ countBlank raw)
    (h2 : noAdjBlank raw = true) :
    ((read_data raw).length : Int) = (countBlank raw : Int) - 1 ∧
    ∀ r ∈ read_data raw, r ≠ [] := by
  have hb : (breakIdxs (raw.map cleanupLine)).length = countBlank raw := by
    unfold breakIdxs
    rw [breakIdxsAux_length]
    exact countBlank_map_cleanup raw
  constructor
  · have hlen : (read_data raw).length = countBlank raw - 1 := by
      simp only [read_data]
      rw [List.length_map, List.length_zip, List.length_tail, hb]
      omega
    rw [hlen]
    omega
  · intro r hr
    simp only [read_data] at hr
    rw [List.mem_map] at hr
    obtain ⟨se, hse, hre⟩ := hr
    have hch : List.Chain' (· < ·) (breakIdxs (raw.map cleanupLine)) :=
      breakIdxsAux_chain (raw.map cleanupLine) 0
    obtain ⟨hlt, hmem1, hmem2⟩ := zip_tail_spec hch se hse
    have hm1 := breakIdxsAux_mem hmem1
    have hm2 := breakIdxsAux_mem hmem2
    simp only [Nat.sub_zero] at hm1 hm2
    obtain ⟨-, hlen1, hget1⟩ := hm1
    obtain ⟨-, hlen2, hget2⟩ := hm2
    have hadj : ∀ i : Nat, ¬((raw.map cleanupLine)[i]? = some ([] : Str) ∧
        (raw.map cleanupLine)[i + 1]? = some ([] : Str)) := by
      intro i hpair
      exact noAdjBlank_spec h2 i
        ⟨(cleanup_blank_at raw i).mp hpair.1, (cleanup_blank_at raw (i + 1)).mp hpair.2⟩
    rw [← hre]
    show (((raw.map cleanupLine).drop (if se.1 = 0 then se.1 else se.1 + 1)).take
      (se.2 - (if se.1 = 0 then se.1 else se.1 + 1))) ≠ []
    by_cases hs0 : se.1 = 0
    · rw [if_pos hs0, hs0, List.drop_zero, Nat.sub_zero]
      intro hnil
      rw [List.take_eq_nil_iff] at hnil
      rcases hnil with h0 | h0
      · omega
      · rw [h0] at hlen2
        simp at hlen2
    · rw [if_neg hs0]
      have he2 : se.1 + 2 ≤ se.2 := by
        by_contra hcon
        have hadj1 : se.2 = se.1 + 1 := by omega
        exact hadj se.1 ⟨hget1, by rw [← hadj1]; exact hget2⟩
      intro hnil
      rw [List.take_eq_nil_iff] at hnil
      rcases hnil with h0 | h0
      · omega
      · rw [List.drop_eq_nil_iff] at h0
        omega

/-- C4 (witness): the specification's example corpus file (2 blank lines,
1 record). -/
theorem c4_read_data_count_witness :
    (1 ≤ countBlank exCorpus) ∧ (noAdjBlank exCorpus = true) ∧
    (((read_data exCorpus).length : Int) = (countBlank exCorpus : Int) - 1 ∧
      ∀ r ∈ read_data exCorpus, r ≠ []) :=
  ⟨by decide, by decide, c4_read_data_count exCorpus (by decide) (by decide)⟩

end NER
